import Mathlib

/-!
Shallow embedding of the order-management core of `src/js/tasks.js`
(class `TaskManager`) of the ToMyPizza repository: the order record
data model, the local-storage persistence, the CRUD operations,
filtering, sorting, and the periodic overdue sweep.

Modelling conventions:
* Timestamps (the ISO strings produced by `new Date(...).toISOString()`
  and the numbers produced by `Date.now()`) are modelled as `Int`
  millisecond values; the JavaScript comparisons `new Date(a) - new
  Date(b)` become integer subtraction.
* `status` and `priority` are stored as strings, exactly as the JSON
  in local storage holds them.
* `localStorage` under the key `pizzaOrders` is modelled by
  `StoredValue`: the key can be absent, hold a serialized collection,
  or hold a string that does not parse back (`JSON.parse` would throw).
* Randomness (`Math.random()` in `getRandomAthensLocation`) and the
  wall clock are passed in as explicit parameters.
* DOM rendering, notifications and event wiring are not modelled
  except where an observable effect matters (the error notification of
  `saveTasks` is returned as a boolean flag).
-/

namespace ToMyPizza

/-- One pizza order record, as stored in `this.tasks` and serialized to
local storage (see the demo objects and `addTask` in `src/js/tasks.js`).
`completedAt` is absent on records that were never completed. -/
structure Task where
  id : Int
  name : String
  description : String
  due : Int
  priority : String
  status : String
  created : Int
  completedAt : Option Int
  location : String
deriving DecidableEq

/-- The ids of the records of a collection, in order. -/
def idsOf (tasks : List Task) : List Int :=
  tasks.map Task.id

/-- The fixed demo set built by `TaskManager.createDemoOrders`
(`src/js/tasks.js` lines 48-138), relative to the construction time
`now`; offsets are minutes converted to milliseconds. -/
def demoOrders (now : Int) : List Task :=
  [ { id := 1001, name := "Large Pepperoni Pizza",
      description := "Extra cheese, double pepperoni, well-done crust",
      due := now + 15 * 60000, priority := "high", status := "pending",
      created := now - 5 * 60000, completedAt := none,
      location := "Aghia Paraskevi" },
    { id := 1002, name := "Family Size Margherita",
      description := "Fresh basil, extra mozzarella, light sauce",
      due := now + 25 * 60000, priority := "medium", status := "pending",
      created := now - 10 * 60000, completedAt := none,
      location := "Chalandri" },
    { id := 1003, name := "Medium BBQ Chicken Pizza",
      description := "No onions, extra BBQ sauce, stuffed crust",
      due := now + 35 * 60000, priority := "low", status := "pending",
      created := now - 15 * 60000, completedAt := none,
      location := "Marousi" },
    { id := 1004, name := "2x Veggie Supreme Pizzas",
      description := "One with gluten-free crust, extra vegetables",
      due := now - 10 * 60000, priority := "medium", status := "pending",
      created := now - 45 * 60000, completedAt := none,
      location := "Kifisia" },
    { id := 1005, name := "Hawaiian Pizza",
      description := "Extra ham, light cheese, pineapple on half",
      due := now - 30 * 60000, priority := "high", status := "completed",
      created := now - 60 * 60000, completedAt := some (now - 25 * 60000),
      location := "Nea Smyrni" },
    { id := 1006, name := "Meat Lovers Pizza",
      description := "All meats, stuffed crust, extra sauce",
      due := now - 45 * 60000, priority := "high", status := "completed",
      created := now - 90 * 60000, completedAt := some (now - 40 * 60000),
      location := "Aghia Paraskevi" },
    { id := 1007, name := "Four Cheese Pizza",
      description := "Add mushrooms and black olives",
      due := now + 20 * 60000, priority := "medium", status := "pending",
      created := now - 8 * 60000, completedAt := none,
      location := "Chalandri" },
    { id := 1008, name := "Greek Style Pizza",
      description := "Feta cheese, Kalamata olives, oregano",
      due := now + 40 * 60000, priority := "low", status := "pending",
      created := now - 3 * 60000, completedAt := none,
      location := "Marousi" } ]

/-- The state of the `pizzaOrders` entry of local storage.  `garbage`
stands for a stored string that `JSON.parse` cannot read back as a
collection — in particular the string produced by
`localStorage.setItem(k, JSON.stringify(undefined))`, which stores the
literal text of an undefined value. -/
inductive StoredValue where
  | absent : StoredValue
  | garbage : StoredValue
  | coll : List Task → StoredValue
deriving DecidableEq

/-- What `JSON.stringify(this.tasks)` followed by `setItem` writes: a
proper collection when `this.tasks` is a list, and an unparseable
string when `this.tasks` is still undefined (as it is while
`createDemoOrders` runs inside the constructor). -/
def serializeTasks : Option (List Task) → StoredValue
  | none => StoredValue.garbage
  | some tasks => StoredValue.coll tasks

/-- `TaskManager.saveTasks` (`src/js/tasks.js` lines 394-401): write the
whole collection to storage inside a try/catch.  `saveFails` models the
storage layer throwing (e.g. quota exceeded).  Returns the new storage
state and whether the error notification was shown; the in-memory
collection `mem` is only read, never written. -/
def saveTasks (mem : Option (List Task)) (st : StoredValue)
    (saveFails : Bool) : StoredValue × Bool :=
  if saveFails then (st, true) else (serializeTasks mem, false)

/-- Reading the collection back: `getItem` followed by `JSON.parse`.
`none` means either the key is absent or parsing throws. -/
def parseStored : StoredValue → Option (List Task)
  | StoredValue.coll tasks => some tasks
  | _ => none

/-- The `TaskManager` constructor (`src/js/tasks.js` lines 28-36)
restricted to its data effect.  When storage holds a collection it is
parsed into memory; when it holds an unparseable string `JSON.parse`
throws (result `none`); when the key is absent, `createDemoOrders` runs:
it builds the demo list, calls `this.saveTasks()` at a point where
`this.tasks` is still undefined, and only then is its return value
assigned to `this.tasks`.  Returns the in-memory collection and the
storage state after construction. -/
def constructTaskManager (st : StoredValue) (now : Int) :
    Option (List Task × StoredValue) :=
  match st with
  | StoredValue.coll tasks => some (tasks, st)
  | StoredValue.garbage => none
  | StoredValue.absent =>
      some (demoOrders now, (saveTasks none StoredValue.absent false).1)

/-- `TaskManager.filterTasks` (`src/js/tasks.js` lines 302-311),
parameterized by `this.currentFilter`. -/
def filterTasks (currentFilter : String) (tasks : List Task) : List Task :=
  match currentFilter with
  | "pending" => tasks.filter fun t => t.status == "pending"
  | "completed" => tasks.filter fun t => t.status == "completed"
  | _ => tasks

/-- The numeric priority ranks of `sortTasks` (`priorityOrder` object,
`src/js/tasks.js` line 319); unknown strings rank lowest. -/
def priorityRank (p : String) : Int :=
  if p == "high" then 3 else if p == "medium" then 2 else
  if p == "low" then 1 else 0

/-- Comparator of the due-ascending sort: `new Date(a.due) - new Date(b.due)`. -/
def dueLe (a b : Task) : Bool :=
  a.due ≤ b.due

/-- Comparator of the name sort: `a.name.localeCompare(b.name)`,
modelled by lexicographic string order. -/
def nameLe (a b : Task) : Bool :=
  a.name ≤ b.name

/-- Comparator of the priority sort: `priorityOrder[b.priority] -
priorityOrder[a.priority]` (descending rank). -/
def priorityGe (a b : Task) : Bool :=
  priorityRank b.priority ≤ priorityRank a.priority

/-- `TaskManager.sortTasks` (`src/js/tasks.js` lines 313-326):
`[...tasks].sort(comparator)` on a copy.  `Array.prototype.sort` is
required by the language standard to be stable, so it is modelled by a
stable merge sort under the comparator selected by `this.currentSort`. -/
def sortTasks (currentSort : String) (tasks : List Task) : List Task :=
  match currentSort with
  | "name" => tasks.mergeSort nameLe
  | "priority" => tasks.mergeSort priorityGe
  | _ => tasks.mergeSort dueLe

/-- JavaScript `String.prototype.trim`: strip whitespace from both ends
of the string, written structurally over the character list. -/
def jsTrim (s : String) : String :=
  ⟨((s.data.dropWhile Char.isWhitespace).reverse.dropWhile
      Char.isWhitespace).reverse⟩

/-- The draft read from the order form (`getFormData`).  `description`
and `priority` are `Option`s so that the `taskData.description?.trim()
|| ''` and `taskData.priority || 'medium'` defaults of `addTask` can be
modelled; due is the parsed due timestamp. -/
structure TaskData where
  name : String
  description : Option String
  due : Int
  priority : Option String
deriving DecidableEq

/-- JavaScript `x || d` on an optional string: undefined and the empty
string both fall back to the default. -/
def orDefault (s : Option String) (d : String) : String :=
  match s with
  | none => d
  | some v => if v == "" then d else v

/-- The eight delivery locations of `getRandomAthensLocation`
(`src/js/tasks.js` lines 694-706). -/
def athensLocations : List String :=
  [ "Aghia Paraskevi", "Chalandri", "Marousi", "Kifisia",
    "Nea Smyrni", "Glyfada", "Piraeus", "Athens Center" ]

/-- `TaskManager.getRandomAthensLocation`: picks
`locations[Math.floor(Math.random() * locations.length)]`; the random
index is the explicit parameter `r`. -/
def getRandomAthensLocation (r : Fin 8) : String :=
  athensLocations.get ⟨r.val, r.isLt⟩

/-- The default priority string used by `addTask`. -/
def defaultPriority : String :=
  "medium"

/-- The record built by `TaskManager.addTask` (`src/js/tasks.js` lines
330-339): id and creation timestamp are `Date.now()` (the parameter
`now`), the name is trimmed, the description falls back to the empty
string, the priority falls back to medium, the status is pending, and
the location is drawn from the fixed Athens list. -/
def newTask (taskData : TaskData) (now : Int) (r : Fin 8) : Task :=
  { id := now,
    name := jsTrim taskData.name,
    description := orDefault (taskData.description.map jsTrim) "",
    due := taskData.due,
    priority := orDefault taskData.priority defaultPriority,
    status := "pending",
    created := now,
    completedAt := none,
    location := getRandomAthensLocation r }

/-- `TaskManager.addTask` restricted to the collection: `this.tasks.push(newTask)`. -/
def addTask (tasks : List Task) (taskData : TaskData) (now : Int)
    (r : Fin 8) : List Task :=
  tasks ++ [newTask taskData now r]

/-- `TaskManager.editTask` as invoked by `handleEdit` (`src/js/tasks.js`
lines 360-369, 582-592): find the first record with the id
(`findIndex`), and when present merge the new name in place; when
absent, a no-op. -/
def editTask : List Task → Int → String → List Task
  | [], _, _ => []
  | t :: rest, taskId, newName =>
      if t.id = taskId then { t with name := newName } :: rest
      else t :: editTask rest taskId newName

/-- `TaskManager.deleteTask` (`src/js/tasks.js` lines 371-379): after
the confirmation dialog, keep every record whose id differs; on cancel
nothing happens. -/
def deleteTask (tasks : List Task) (taskId : Int) (confirmed : Bool) :
    List Task :=
  if confirmed then tasks.filter (fun t => t.id != taskId) else tasks

/-- `TaskManager.markAsCompleted` (`src/js/tasks.js` lines 381-391):
`find` the first record with the id; if it exists and its status is not
already completed, set status completed and stamp `completedAt` with
the current time. -/
def markAsCompleted : List Task → Int → Int → List Task
  | [], _, _ => []
  | t :: rest, taskId, now =>
      if t.id = taskId then
        (if t.status ≠ "completed" then
          { t with status := "completed", completedAt := some now }
        else t) :: rest
      else t :: markAsCompleted rest taskId now

/-- The clear-all handler (`src/js/tasks.js` lines 543-561): after
confirmation, `this.tasks = []`. -/
def clearAll (tasks : List Task) (confirmed : Bool) : List Task :=
  if confirmed then [] else tasks

/-- One iteration of the `forEach` body of `TaskManager.updateTimers`
(`src/js/tasks.js` lines 602-626) for the record with id `taskId`: read
the record, and when it is pending with `timeDiff = due - now ≤ 0` and
overdue by strictly more than 60 minutes (`Math.abs(timeDiff)/60000 >
60`, i.e. `|timeDiff| > 3600000` ms), call `markAsCompleted`. -/
def sweepOne (now : Int) (tasks : List Task) (taskId : Int) : List Task :=
  match tasks.find? (fun t => t.id == taskId) with
  | none => tasks
  | some t =>
      if t.status = "pending" ∧ t.due - now ≤ 0 ∧ |t.due - now| > 3600000
      then markAsCompleted tasks taskId now
      else tasks

/-- `TaskManager.updateTimers` restricted to its data effect: the
`forEach` loop visits the records in order (their ids are never changed
by the loop, so the visit order is the initial id sequence) and
auto-completes each sufficiently overdue pending record via
`markAsCompleted`. -/
def updateTimers (tasks : List Task) (now : Int) : List Task :=
  (idsOf tasks).foldl (sweepOne now) tasks

/-- The mutation-then-persist sequence of `addTask`: push the new record,
then `saveTasks` (which may fail). Returns the in-memory collection,
the storage state, and whether the error notification was shown. -/
def addAndSave (tasks : List Task) (taskData : TaskData) (now : Int)
    (r : Fin 8) (st : StoredValue) (saveFails : Bool) :
    List Task × StoredValue × Bool :=
  let tasksAfter := addTask tasks taskData now r
  let saved := saveTasks (some tasksAfter) st saveFails
  (tasksAfter, saved.1, saved.2)

/-- The filter key selecting pending records. -/
def filterPending : String :=
  "pending"

/-- The filter key selecting completed records. -/
def filterCompleted : String :=
  "completed"

/-- The filter key selecting every record. -/
def filterAll : String :=
  "all"

/-- The sort key selecting the due-ascending order (the default of
`this.currentSort`). -/
def sortByDue : String :=
  "due"

/-- The pointwise effect of one sweep cycle on a single record, as the
spec describes it: a pending record overdue by strictly more than 60
minutes becomes completed with its completion timestamp set to the
sweep time; every other record is untouched. -/
def autoCompleteIfOverdue (now : Int) (t : Task) : Task :=
  if t.status = "pending" ∧ t.due - now ≤ 0 ∧ |t.due - now| > 3600000 then
    { t with status := "completed", completedAt := some now }
  else t

/-- A sample pending record used to instantiate theorems with
hypotheses at concrete inputs. -/
def sampleA : Task :=
  { id := 1, name := "A", description := "", due := 10, priority := "high",
    status := "pending", created := 0, completedAt := none,
    location := "Chalandri" }

/-- A second sample record with a distinct id. -/
def sampleB : Task :=
  { id := 2, name := "B", description := "", due := 20, priority := "low",
    status := "completed", created := 0, completedAt := some 5,
    location := "Marousi" }

/-- A sample draft with surrounding whitespace in the name, an absent
description and an absent priority. -/
def sampleDraft : TaskData :=
  { name := " A ", description := none, due := 100, priority := none }

/-- The first random location index. -/
def rZero : Fin 8 :=
  ⟨0, by decide⟩

/-- Predicate selecting the records whose due timestamp equals `d`,
used to state sort stability. -/
def dueEq (d : Int) (t : Task) : Bool :=
  t.due == d

/-- A sample valid draft with every optional field present. -/
def wDraft : TaskData :=
  { name := "Hawaiian", description := some " extra ", due := 100,
    priority := some "high" }

/-- A pending record 90 minutes overdue at sweep time 0. -/
def sweepW1 : Task :=
  { id := 11, name := "W1", description := "", due := -5400000,
    priority := "high", status := "pending", created := -6000000,
    completedAt := none, location := "Glyfada" }

/-- A pending record 30 minutes overdue at sweep time 0. -/
def sweepW2 : Task :=
  { id := 12, name := "W2", description := "", due := -1800000,
    priority := "medium", status := "pending", created := -2000000,
    completedAt := none, location := "Piraeus" }

/-- A pending record exactly 60 minutes overdue at sweep time 0. -/
def sweepW3 : Task :=
  { id := 13, name := "W3", description := "", due := -3600000,
    priority := "low", status := "pending", created := -4000000,
    completedAt := none, location := "Kifisia" }

/-- A record already completed long before sweep time 0. -/
def sweepW4 : Task :=
  { id := 14, name := "W4", description := "", due := -7200000,
    priority := "high", status := "completed", created := -8000000,
    completedAt := some (-100), location := "Marousi" }

/-- C1: on construction with no collection in storage, the in-memory
collection is populated with the demo set, but because `createDemoOrders`
calls `this.saveTasks()` before `this.tasks` is assigned, storage
receives the serialization of an undefined collection rather than the
demo set, and a subsequent construction from that storage fails when
`JSON.parse` throws rather than yielding the demo set. -/
theorem constructor_demo_persist_bug (now nowLater : Int) :
    constructTaskManager StoredValue.absent now =
      some (demoOrders now, StoredValue.garbage) ∧
    parseStored StoredValue.garbage = none ∧
    constructTaskManager StoredValue.garbage nowLater = none :=
  ⟨rfl, rfl, rfl⟩

/-- C3: Complete(id) is idempotent — applying `markAsCompleted` twice,
at any two times, yields the same collection as applying it once; in
particular the completion timestamp written by the first call survives
the second call unchanged. -/
theorem markAsCompleted_idempotent (tasks : List Task) (taskId : Int)
    (t1 t2 : Int) :
    markAsCompleted (markAsCompleted tasks taskId t1) taskId t2 =
      markAsCompleted tasks taskId t1 := by
  induction tasks with
  | nil => rfl
  | cons t rest ih =>
      by_cases h : t.id = taskId
      · by_cases hs : t.status = "completed"
        · simp [markAsCompleted, h, hs]
        · simp [markAsCompleted, h, hs]
      · simp [markAsCompleted, h, ih]

/-- C8: a persistence failure is absorbed by `saveTasks` — the storage
state is left as it was, the error notification is shown, and the
in-memory collection produced by the triggering operation (here an add)
is untouched, so the operation still takes effect in memory; on success
the whole collection is written. -/
theorem saveTasks_failure_nonfatal (tasks : List Task)
    (taskData : TaskData) (now : Int) (r : Fin 8) (st : StoredValue) :
    saveTasks (some tasks) st true = (st, true) ∧
    (addAndSave tasks taskData now r st true).1 =
      addTask tasks taskData now r ∧
    (addAndSave tasks taskData now r st true).2.1 = st ∧
    (addAndSave tasks taskData now r st true).2.2 = true ∧
    (addAndSave tasks taskData now r st false).2.1 =
      StoredValue.coll (addTask tasks taskData now r) ∧
    (addAndSave tasks taskData now r st false).2.2 = false := by
  refine ⟨rfl, rfl, rfl, rfl, rfl, rfl⟩

/-- Unfolding of the pending branch of `filterTasks`. -/
theorem filterTasks_pending_eq (tasks : List Task) :
    filterTasks filterPending tasks =
      tasks.filter (fun t => t.status == "pending") :=
  rfl

/-- Unfolding of the completed branch of `filterTasks`. -/
theorem filterTasks_completed_eq (tasks : List Task) :
    filterTasks filterCompleted tasks =
      tasks.filter (fun t => t.status == "completed") :=
  rfl

/-- C6: the pending view and the completed view together are a
permutation of the original collection (when every status is pending or
completed), the all view is the collection itself, and every view is an
order-preserving subsequence. -/
theorem filterTasks_partition (tasks : List Task)
    (hstatus : ∀ t ∈ tasks, t.status = "pending" ∨ t.status = "completed") :
    (filterTasks filterPending tasks ++
      filterTasks filterCompleted tasks).Perm tasks ∧
    filterTasks filterAll tasks = tasks ∧
    ∀ f, (filterTasks f tasks).Sublist tasks := by
  refine ⟨?_, rfl, ?_⟩
  · rw [filterTasks_pending_eq, filterTasks_completed_eq]
    have hco : tasks.filter (fun t => t.status == "completed") =
        tasks.filter (fun t => !(t.status == "pending")) := by
      apply List.filter_congr
      intro t ht
      rcases hstatus t ht with h | h <;> simp [h]
    rw [hco]
    exact List.filter_append_perm _ tasks
  · intro f
    unfold filterTasks
    split
    · exact List.filter_sublist _
    · exact List.filter_sublist _
    · exact List.Sublist.refl _

/-- Witness instantiating the partition theorem on a concrete
collection with one pending and one completed record. -/
theorem filterTasks_partition_witness :
    (filterTasks filterPending [sampleA, sampleB] ++
      filterTasks filterCompleted [sampleA, sampleB]).Perm
      [sampleA, sampleB] :=
  (filterTasks_partition [sampleA, sampleB] (by decide)).1

/-- C4: confirmed Delete(id) removes exactly the record whose id is
`taskId` when the ids are pairwise distinct and such a record exists,
is a no-op when no record has that id, and is a no-op when the
confirmation dialog is cancelled. -/
theorem deleteTask_spec (tasks : List Task) (taskId : Int) :
    ((∀ t ∈ tasks, t.id ≠ taskId) → deleteTask tasks taskId true = tasks) ∧
    ((idsOf tasks).Nodup → ∀ t ∈ tasks, t.id = taskId →
      ∃ l1 l2, tasks = l1 ++ t :: l2 ∧
        deleteTask tasks taskId true = l1 ++ l2) ∧
    deleteTask tasks taskId false = tasks := by
  refine ⟨?_, ?_, rfl⟩
  · intro h
    have hall : ∀ t ∈ tasks, (t.id != taskId) = true := by
      intro t ht
      simpa using h t ht
    simp [deleteTask, List.filter_eq_self.mpr hall]
  · intro hnd t ht hid
    obtain ⟨l1, l2, rfl⟩ := List.append_of_mem ht
    refine ⟨l1, l2, rfl, ?_⟩
    have hids : (idsOf l1 ++ t.id :: idsOf l2).Nodup := by
      simpa [idsOf] using hnd
    have hnotmem : t.id ∉ idsOf l1 ++ idsOf l2 :=
      (List.nodup_cons.mp (List.nodup_middle.mp hids)).1
    have h1 : ∀ u ∈ l1, (u.id != taskId) = true := by
      intro u hu
      have hne : u.id ≠ t.id := by
        intro he
        exact hnotmem (List.mem_append_left _ (he ▸ List.mem_map_of_mem Task.id hu))
      simpa [hid] using hne
    have h2 : ∀ u ∈ l2, (u.id != taskId) = true := by
      intro u hu
      have hne : u.id ≠ t.id := by
        intro he
        exact hnotmem (List.mem_append_right _ (he ▸ List.mem_map_of_mem Task.id hu))
      simpa [hid] using hne
    simp [deleteTask, List.filter_append, List.filter_eq_self.mpr h1,
      List.filter_eq_self.mpr h2, hid]

/-- Witness instantiating the delete theorem: deleting id 3 from a
collection without it is a no-op, and deleting id 2 removes exactly the
record with id 2. -/
theorem deleteTask_spec_witness :
    deleteTask [sampleA, sampleB] 3 true = [sampleA, sampleB] ∧
    ∃ l1 l2, [sampleA, sampleB] = l1 ++ sampleB :: l2 ∧
      deleteTask [sampleA, sampleB] 2 true = l1 ++ l2 :=
  ⟨(deleteTask_spec [sampleA, sampleB] 3).1 (by decide),
   (deleteTask_spec [sampleA, sampleB] 2).2.1 (by decide) sampleB
     (by decide) (by decide)⟩

/-- The due comparator is transitive. -/
theorem dueLe_trans (a b c : Task) (hab : dueLe a b = true)
    (hbc : dueLe b c = true) : dueLe a c = true := by
  simp only [dueLe, decide_eq_true_eq] at *
  omega

/-- The due comparator is total. -/
theorem dueLe_total (a b : Task) : (dueLe a b || dueLe b a) = true := by
  simp only [dueLe, Bool.or_eq_true, decide_eq_true_eq]
  omega

/-- Unfolding of the due branch of `sortTasks`. -/
theorem sortTasks_due_eq (tasks : List Task) :
    sortTasks sortByDue tasks = tasks.mergeSort dueLe :=
  rfl

/-- C7: the due-ascending sort is a permutation of the collection,
consecutive records have non-decreasing due timestamps, and records
with any fixed due timestamp keep exactly their original relative
order (stability). -/
theorem sortTasks_due_spec (tasks : List Task) :
    (sortTasks sortByDue tasks).Perm tasks ∧
    (sortTasks sortByDue tasks).Pairwise (fun a b => a.due ≤ b.due) ∧
    ∀ d : Int, (sortTasks sortByDue tasks).filter (dueEq d) =
      tasks.filter (dueEq d) := by
  rw [sortTasks_due_eq]
  refine ⟨List.mergeSort_perm tasks dueLe, ?_, ?_⟩
  · have h := List.sorted_mergeSort dueLe_trans dueLe_total tasks
    exact h.imp (by intro a b hab; simpa [dueLe] using hab)
  · intro d
    have hall : ∀ u ∈ tasks.filter (dueEq d), dueEq d u = true :=
      fun u hu => (List.mem_filter.mp hu).2
    have hsorted : (tasks.filter (dueEq d)).Pairwise
        (fun a b => dueLe a b = true) := by
      apply List.pairwise_of_forall_mem_list
      intro a ha b hb
      have hda : a.due = d := by simpa [dueEq] using hall a ha
      have hdb : b.due = d := by simpa [dueEq] using hall b hb
      simp [dueLe, hda, hdb]
    have hsub : (tasks.filter (dueEq d)).Sublist (tasks.mergeSort dueLe) :=
      List.sublist_mergeSort dueLe_trans dueLe_total hsorted
        (List.filter_sublist tasks)
    have hsub2 : (tasks.filter (dueEq d)).Sublist
        ((tasks.mergeSort dueLe).filter (dueEq d)) := by
      have h := List.Sublist.filter (dueEq d) hsub
      rwa [List.filter_eq_self.mpr hall] at h
    have hperm : ((tasks.mergeSort dueLe).filter (dueEq d)).Perm
        (tasks.filter (dueEq d)) :=
      (List.mergeSort_perm tasks dueLe).filter (dueEq d)
    exact (hsub2.eq_of_length hperm.length_eq.symm).symm

/-- C10: Add appends exactly one record built from the normalized
draft: the stored name is the trimmed draft name, an absent description
is stored as the empty string, an absent priority is stored as medium,
and the stored delivery location always belongs to the fixed list of
eight Athens locations and does not depend on the draft. -/
theorem addTask_normalizes (tasks : List Task) (taskData taskData2 : TaskData)
    (now : Int) (r : Fin 8) :
    addTask tasks taskData now r = tasks ++ [newTask taskData now r] ∧
    (newTask taskData now r).name = jsTrim taskData.name ∧
    (taskData.description = none →
      (newTask taskData now r).description = "") ∧
    (taskData.priority = none →
      (newTask taskData now r).priority = defaultPriority) ∧
    (newTask taskData now r).location ∈ athensLocations ∧
    (newTask taskData now r).location = (newTask taskData2 now r).location := by
  refine ⟨rfl, rfl, ?_, ?_, ?_, rfl⟩
  · intro h
    simp [newTask, h, orDefault]
  · intro h
    simp [newTask, h, orDefault]
  · exact List.get_mem athensLocations r.val r.isLt

/-- Witness instantiating the normalization theorem on a draft with a
padded name, no description and no priority. -/
theorem addTask_normalizes_witness :
    addTask [] sampleDraft 5 rZero = [] ++ [newTask sampleDraft 5 rZero] ∧
    (newTask sampleDraft 5 rZero).name = jsTrim sampleDraft.name ∧
    (newTask sampleDraft 5 rZero).description = "" ∧
    (newTask sampleDraft 5 rZero).priority = defaultPriority ∧
    (newTask sampleDraft 5 rZero).location ∈ athensLocations := by
  have h := addTask_normalizes [] sampleDraft sampleDraft 5 rZero
  exact ⟨h.1, h.2.1, h.2.2.1 rfl, h.2.2.2.1 rfl, h.2.2.2.2.1⟩

/-- C2 counterexample: a valid draft (name non-empty, even after
trimming, and due in the future of the add time) whose stored record
does not have the draft's name — `addTask` stores the trimmed name, so
the claim's field equality fails on drafts with surrounding
whitespace. -/
theorem addTask_draft_equality_cex :
    sampleDraft.name ≠ "" ∧ jsTrim sampleDraft.name ≠ "" ∧
    (50 : Int) ≤ sampleDraft.due ∧
    addTask [] sampleDraft 50 rZero = [newTask sampleDraft 50 rZero] ∧
    (newTask sampleDraft 50 rZero).name ≠ sampleDraft.name := by
  refine ⟨by decide, by decide, by decide, rfl, by decide⟩

/-- C2 (amended): for every valid draft, Add appends exactly one new
record (pre-existing records unchanged) and loading the persisted
collection returns it; the record's name and description are the
draft's after whitespace trimming (empty when the description is
absent), its due timestamp and non-empty priority are the draft's
(medium when absent), its status is pending, and it has no completion
timestamp. -/
theorem addTask_load_spec (tasks : List Task) (taskData : TaskData)
    (now : Int) (r : Fin 8) (st : StoredValue)
    (hname : jsTrim taskData.name ≠ "") (hdue : now ≤ taskData.due) :
    addTask tasks taskData now r = tasks ++ [newTask taskData now r] ∧
    parseStored (saveTasks (some (addTask tasks taskData now r)) st false).1 =
      some (tasks ++ [newTask taskData now r]) ∧
    (newTask taskData now r).name = jsTrim taskData.name ∧
    (∀ s, taskData.description = some s →
      (newTask taskData now r).description = jsTrim s) ∧
    (taskData.description = none →
      (newTask taskData now r).description = "") ∧
    (newTask taskData now r).due = taskData.due ∧
    (∀ p, taskData.priority = some p → p ≠ "" →
      (newTask taskData now r).priority = p) ∧
    (taskData.priority = none →
      (newTask taskData now r).priority = defaultPriority) ∧
    (newTask taskData now r).status = "pending" ∧
    (newTask taskData now r).completedAt = none := by
  refine ⟨rfl, rfl, rfl, ?_, ?_, rfl, ?_, ?_, rfl, rfl⟩
  · intro s h
    simp only [newTask, h, Option.map_some', orDefault]
    by_cases hs : jsTrim s = ""
    · simp [hs]
    · simp [hs]
  · intro h
    simp [newTask, h, orDefault]
  · intro p h hp
    simp [newTask, h, orDefault, hp]
  · intro h
    simp [newTask, h, orDefault]

/-- Witness instantiating the amended add theorem on a concrete valid
draft with all optional fields present. -/
theorem addTask_load_spec_witness :
    addTask [sampleA] wDraft 50 rZero =
      [sampleA] ++ [newTask wDraft 50 rZero] ∧
    parseStored
      (saveTasks (some (addTask [sampleA] wDraft 50 rZero))
        StoredValue.absent false).1 =
      some ([sampleA] ++ [newTask wDraft 50 rZero]) ∧
    (newTask wDraft 50 rZero).description = jsTrim " extra " ∧
    (newTask wDraft 50 rZero).priority = "high" ∧
    (newTask wDraft 50 rZero).status = "pending" ∧
    (newTask wDraft 50 rZero).completedAt = none := by
  obtain ⟨h1, h2, h3, h4, h5, h6, h7, h8, h9, h10⟩ :=
    addTask_load_spec [sampleA] wDraft 50 rZero StoredValue.absent
      (by decide) (by decide)
  exact ⟨h1, h2, h4 _ rfl, h7 _ rfl (by decide), h9, h10⟩

/-- Editing a record never changes any identifier. -/
theorem idsOf_editTask (tasks : List Task) (taskId : Int)
    (newName : String) :
    idsOf (editTask tasks taskId newName) = idsOf tasks := by
  induction tasks with
  | nil => rfl
  | cons t rest ih =>
      by_cases h : t.id = taskId
      · simp [editTask, h, idsOf]
      · simp only [editTask, if_neg h, idsOf, List.map_cons]
        exact congrArg (List.cons t.id) ih

/-- Completing a record never changes any identifier. -/
theorem idsOf_markAsCompleted (tasks : List Task) (taskId now : Int) :
    idsOf (markAsCompleted tasks taskId now) = idsOf tasks := by
  induction tasks with
  | nil => rfl
  | cons t rest ih =>
      by_cases h : t.id = taskId
      · by_cases hs : t.status = "completed" <;>
          simp [markAsCompleted, h, hs, idsOf]
      · simp only [markAsCompleted, if_neg h, idsOf, List.map_cons]
        exact congrArg (List.cons t.id) ih

/-- One sweep-loop iteration never changes any identifier. -/
theorem idsOf_sweepOne (now : Int) (tasks : List Task) (taskId : Int) :
    idsOf (sweepOne now tasks taskId) = idsOf tasks := by
  simp only [sweepOne]
  cases hfind : tasks.find? (fun t => t.id == taskId) with
  | none => rfl
  | some t =>
      simp only
      split
      · exact idsOf_markAsCompleted tasks taskId now
      · rfl

/-- Folding sweep iterations never changes any identifier. -/
theorem idsOf_foldl_sweep (now : Int) (ids : List Int)
    (tasks : List Task) :
    idsOf (ids.foldl (sweepOne now) tasks) = idsOf tasks := by
  induction ids generalizing tasks with
  | nil => rfl
  | cons i ids ih =>
      simp only [List.foldl_cons]
      rw [ih, idsOf_sweepOne]

/-- The sweep never changes any identifier. -/
theorem idsOf_updateTimers (tasks : List Task) (now : Int) :
    idsOf (updateTimers tasks now) = idsOf tasks :=
  idsOf_foldl_sweep now (idsOf tasks) tasks

/-- C9 (amended): starting from a collection with pairwise-distinct
identifiers, the demo set, Edit, Complete, Delete, ClearAll and the
sweep yield collections with pairwise-distinct identifiers, and Add
does so exactly when the clock value it assigns as the new id is not
already an identifier of the collection (the code performs no
freshness check of its own). -/
theorem idUniqueness_invariant (tasks : List Task) (taskId now : Int)
    (newName : String) (taskData : TaskData) (r : Fin 8)
    (confirmed : Bool) (h : (idsOf tasks).Nodup) :
    (idsOf (demoOrders now)).Nodup ∧
    (now ∉ idsOf tasks → (idsOf (addTask tasks taskData now r)).Nodup) ∧
    (idsOf (editTask tasks taskId newName)).Nodup ∧
    (idsOf (markAsCompleted tasks taskId now)).Nodup ∧
    (idsOf (deleteTask tasks taskId confirmed)).Nodup ∧
    (idsOf (clearAll tasks confirmed)).Nodup ∧
    (idsOf (updateTimers tasks now)).Nodup := by
  refine ⟨?_, ?_, ?_, ?_, ?_, ?_, ?_⟩
  · have hids : idsOf (demoOrders now) =
        [1001, 1002, 1003, 1004, 1005, 1006, 1007, 1008] := rfl
    rw [hids]
    decide
  · intro hnotin
    have heq : idsOf (addTask tasks taskData now r) = idsOf tasks ++ [now] := by
      simp [addTask, idsOf, newTask]
    rw [heq, List.nodup_append]
    exact ⟨h, List.nodup_singleton now, List.disjoint_singleton.mpr hnotin⟩
  · rw [idsOf_editTask]
    exact h
  · rw [idsOf_markAsCompleted]
    exact h
  · cases confirmed
    · exact h
    · have hsub : (idsOf (deleteTask tasks taskId true)).Sublist (idsOf tasks) :=
        List.Sublist.map Task.id (List.filter_sublist tasks)
      exact hsub.nodup h
  · cases confirmed
    · exact h
    · simp [clearAll, idsOf]
  · rw [idsOf_updateTimers]
    exact h

/-- Witness instantiating the uniqueness theorem on a concrete two-record
collection, with an add at a clock value that is fresh. -/
theorem idUniqueness_invariant_witness :
    (idsOf (addTask [sampleA, sampleB] sampleDraft 7 rZero)).Nodup ∧
    (idsOf (markAsCompleted [sampleA, sampleB] 1 7)).Nodup ∧
    (idsOf (updateTimers [sampleA, sampleB] 7)).Nodup := by
  have h := idUniqueness_invariant [sampleA, sampleB] 1 7 sampleDraft.name
    sampleDraft rZero true (by decide)
  exact ⟨h.2.1 (by decide), h.2.2.2.1, h.2.2.2.2.2.2⟩

/-- C9 counterexample: `addTask` assigns `Date.now()` as the id with no
freshness check, so an add performed at a clock value equal to an
existing identifier (two adds within the same millisecond, here time 1
against the record with id 1) yields duplicate identifiers. -/
theorem idUniqueness_cex :
    (idsOf [sampleA]).Nodup ∧
    ¬ (idsOf (addTask [sampleA] sampleDraft 1 rZero)).Nodup := by
  constructor <;> decide

/-- The sweep's pointwise effect never changes the id. -/
theorem autoCompleteIfOverdue_id (now : Int) (t : Task) :
    (autoCompleteIfOverdue now t).id = t.id := by
  simp only [autoCompleteIfOverdue]
  split <;> rfl

/-- A sweep iteration for an id that is not at the head skips the
head. -/
theorem sweepOne_cons_ne (now : Int) (t : Task) (rest : List Task)
    (taskId : Int) (h : t.id ≠ taskId) :
    sweepOne now (t :: rest) taskId = t :: sweepOne now rest taskId := by
  have hfind : (t :: rest).find? (fun u => u.id == taskId) =
      rest.find? (fun u => u.id == taskId) := by
    simp [List.find?_cons, h]
  simp only [sweepOne, hfind]
  cases hf : rest.find? (fun u => u.id == taskId) with
  | none => rfl
  | some u =>
      simp only
      split
      · simp [markAsCompleted, h]
      · rfl

/-- A sweep iteration for the id of the head record applies the
pointwise sweep effect to the head and leaves the tail alone. -/
theorem sweepOne_cons_self (now : Int) (t : Task) (rest : List Task) :
    sweepOne now (t :: rest) t.id =
      autoCompleteIfOverdue now t :: rest := by
  have hfind : (t :: rest).find? (fun u => u.id == t.id) = some t := by
    simp [List.find?_cons]
  simp only [sweepOne, hfind]
  by_cases hq : t.status = "pending" ∧ t.due - now ≤ 0 ∧
      |t.due - now| > 3600000
  · rw [if_pos hq]
    have hac : autoCompleteIfOverdue now t =
        { t with status := "completed", completedAt := some now } := by
      simp only [autoCompleteIfOverdue]
      rw [if_pos hq]
    have hst : t.status ≠ "completed" := by
      rw [hq.1]
      decide
    rw [hac]
    simp [markAsCompleted, hst]
  · rw [if_neg hq]
    have hac : autoCompleteIfOverdue now t = t := by
      simp only [autoCompleteIfOverdue]
      rw [if_neg hq]
    rw [hac]

/-- A sweep iteration for an id that occurs in none of the records of a
prefix skips the whole prefix. -/
theorem sweepOne_append_notin (now : Int) (done rest : List Task)
    (taskId : Int) (h : taskId ∉ idsOf done) :
    sweepOne now (done ++ rest) taskId =
      done ++ sweepOne now rest taskId := by
  induction done with
  | nil => rfl
  | cons t dtail ih =>
      have hne : t.id ≠ taskId := by
        intro he
        exact h (by simp [idsOf, he])
      have h2 : taskId ∉ idsOf dtail := by
        intro hm
        apply h
        simp only [idsOf, List.map_cons, List.mem_cons]
        exact Or.inr hm
      simp only [List.cons_append]
      rw [sweepOne_cons_ne now t (dtail ++ rest) taskId hne, ih h2]

/-- Folding the sweep over the ids of a suffix whose ids are disjoint
from an already-processed prefix maps the pointwise sweep effect over
the suffix. -/
theorem foldl_sweep_eq_map (now : Int) :
    ∀ (rest done : List Task), (idsOf (done ++ rest)).Nodup →
      (idsOf rest).foldl (sweepOne now) (done ++ rest) =
        done ++ rest.map (autoCompleteIfOverdue now) := by
  intro rest
  induction rest with
  | nil =>
      intro done h
      simp [idsOf]
  | cons t rtail ih =>
      intro done h
      have hmid : (idsOf done ++ t.id :: idsOf rtail).Nodup := by
        simpa [idsOf] using h
      have hnotin : t.id ∉ idsOf done ++ idsOf rtail :=
        (List.nodup_cons.mp (List.nodup_middle.mp hmid)).1
      have hnotin1 : t.id ∉ idsOf done := fun hm =>
        hnotin (List.mem_append_left _ hm)
      have hstep : sweepOne now (done ++ t :: rtail) t.id =
          done ++ autoCompleteIfOverdue now t :: rtail := by
        rw [sweepOne_append_notin now done (t :: rtail) t.id hnotin1,
          sweepOne_cons_self]
      have harr : done ++ autoCompleteIfOverdue now t :: rtail =
          (done ++ [autoCompleteIfOverdue now t]) ++ rtail := by
        simp
      have hnd2 : (idsOf ((done ++ [autoCompleteIfOverdue now t]) ++
          rtail)).Nodup := by
        have : idsOf ((done ++ [autoCompleteIfOverdue now t]) ++ rtail) =
            idsOf done ++ t.id :: idsOf rtail := by
          simp [idsOf, autoCompleteIfOverdue_id]
        rw [this]
        exact hmid
      have hfold := ih (done ++ [autoCompleteIfOverdue now t]) hnd2
      calc (idsOf (t :: rtail)).foldl (sweepOne now) (done ++ t :: rtail)
          = (idsOf rtail).foldl (sweepOne now)
              (sweepOne now (done ++ t :: rtail) t.id) := by
            simp [idsOf]
        _ = (idsOf rtail).foldl (sweepOne now)
              ((done ++ [autoCompleteIfOverdue now t]) ++ rtail) := by
            rw [hstep, harr]
        _ = (done ++ [autoCompleteIfOverdue now t]) ++
              rtail.map (autoCompleteIfOverdue now) := hfold
        _ = done ++ (t :: rtail).map (autoCompleteIfOverdue now) := by
            simp

/-- C5: when the record identifiers are pairwise distinct, one sweep
cycle transitions exactly the pending records overdue by strictly more
than 60 minutes (3600000 ms) to completed with completion timestamp
equal to the sweep time, and leaves every other record — pending but
overdue by 60 minutes or less, not yet due, or already completed —
unchanged. -/
theorem updateTimers_sweep_spec (tasks : List Task) (now : Int)
    (h : (idsOf tasks).Nodup) :
    updateTimers tasks now = tasks.map (autoCompleteIfOverdue now) := by
  have hmain := foldl_sweep_eq_map now tasks [] (by simpa using h)
  simpa [updateTimers] using hmain

/-- Witness instantiating the sweep theorem: a record 90 minutes
overdue is completed at the sweep time, while records 30 minutes
overdue, exactly 60 minutes overdue, or already completed are left
unchanged. -/
theorem updateTimers_sweep_witness :
    updateTimers [sweepW1, sweepW2, sweepW3, sweepW4] 0 =
      [{ sweepW1 with status := "completed", completedAt := some 0 },
        sweepW2, sweepW3, sweepW4] := by
  have h := updateTimers_sweep_spec [sweepW1, sweepW2, sweepW3, sweepW4] 0
    (by decide)
  rw [h]
  decide

end ToMyPizza
